import Mathlib

/-!
Verification development for `generate_diagrams.py`, a script that parses an
Avigilon "Door Configuration Report" CSV into a panel → subpanel → door
hierarchy and lays out one wiring diagram per panel inside the unit square.

The Python source is shallowly embedded:
* CSV rows become `Row` (each pandas cell is `Option String`, `none` = NaN);
* Python dicts become association lists with insertion-order-preserving
  update (`dinsert`, `updD`), matching dict assignment and `setdefault`;
* the two `re.search` patterns of `parse_door_config` are hand-compiled into
  deterministic matchers with explicit backtracking where the regex needs it;
* matplotlib coordinates become exact rationals (`ℚ`);
* drawing produces a `Layout` value instead of a PNG; returning `none`
  models "no output artifact is produced".
-/

set_option maxHeartbeats 1000000

namespace DoorConfig

/-! ### Character classes and Python-flavoured string helpers (ASCII fragment)

`isSpaceChar` is Python's `\s` on ASCII; `isWordChar` is `\w` on ASCII.
All literals in the source patterns are ASCII, and `re.IGNORECASE` matching
of an ASCII pattern equals case-sensitive matching of the lowercased pattern
against the lowercased text (the classes `\s`, `\d`, `\w` are invariant under
lowercasing), so the extractor below lowercases its input once and matches
lowercased literals. -/

def isSpaceChar (c : Char) : Bool :=
  c = ' ' || c = '\t' || c = '\n' || c = '\r' || c = '\x0b' || c = '\x0c'

def isWordChar (c : Char) : Bool :=
  c.isAlphanum || c = '_'

/-- Value of a digit string, as computed by Python `int` on a `\d+` capture. -/
def natOfDigits (ds : List Char) : Nat :=
  ds.foldl (fun n c => 10 * n + (c.toNat - 48)) 0

/-- Holds when `pat` is a leading run of `s`. -/
def startsWithList : List Char → List Char → Bool
  | [], _ => true
  | _ :: _, [] => false
  | p :: ps, c :: cs => p = c && startsWithList ps cs

/-- Substring containment (used only to state counterexamples). -/
def containsSub (pat : List Char) : List Char → Bool
  | [] => startsWithList pat []
  | c :: t => startsWithList pat (c :: t) || containsSub pat t

/-- Python `str.strip()` on the ASCII whitespace fragment. -/
def pyStripList (s : List Char) : List Char :=
  (((s.dropWhile isSpaceChar).reverse).dropWhile isSpaceChar).reverse

def pyStrip (s : String) : String :=
  ⟨pyStripList s.data⟩

/-- Rendering `str(cell)` for a pandas cell read through `df.loc`: a missing
value (NaN) prints as `"nan"`. -/
def cellStr (v : Option String) : String :=
  v.getD "nan"

/-! ### The two `re.search` patterns of `parse_door_config` (source lines 125/128)

Pattern 1: `subpanel\s+(\d+)\s+Address\s+(\d+)` (IGNORECASE).
Pattern 2: `Subpanel:(\d+)\s+\w+:?(\d+)` (IGNORECASE).

Both are matched by `re.search`: the match is attempted at every start
position from the left, first success wins.  In pattern 1 every pair of
adjacent tokens has disjoint first-character classes, so greedy maximal
munch per token is exact.  In pattern 2 the same holds up to `\w+`, whose
greedy repetition must backtrack against the following `:?(\d+)` because
digits are word characters; `wordBt` tries the longest `\w+` consumption
first and shortens it one character at a time, exactly as the regex engine
does. -/

/-- Consume a literal; the pattern literal is given lowercased. -/
def stripLit : List Char → List Char → Option (List Char)
  | [], s => some s
  | _ :: _, [] => none
  | p :: ps, c :: cs => if c = p then stripLit ps cs else none

/-- Consume `\s+` (at least one whitespace character, maximal run). -/
def ws1 : List Char → Option (List Char)
  | [] => none
  | c :: cs => if isSpaceChar c then some (cs.dropWhile isSpaceChar) else none

/-- Consume `(\d+)` (greedy), returning the captured value and the rest. -/
def digits1 : List Char → Option (Nat × List Char)
  | [] => none
  | c :: cs =>
    if c.isDigit then
      some (natOfDigits ((c :: cs).takeWhile Char.isDigit),
            (c :: cs).dropWhile Char.isDigit)
    else none

/-- Pattern `subpanel\s+(\d+)\s+Address\s+(\d+)` anchored at the current position. -/
def matchP1At (s : List Char) : Option (Nat × Nat) := do
  let s1 ← stripLit "subpanel".toList s
  let s2 ← ws1 s1
  let (g1, s3) ← digits1 s2
  let s4 ← ws1 s3
  let s5 ← stripLit "address".toList s4
  let s6 ← ws1 s5
  let (g2, _) ← digits1 s6
  pure (g1, g2)

/-- Fragment `:?(\d+)`: a greedy optional colon followed by a digit capture.  If the
colon is consumed but no digit follows, backtracking to the empty `:?` also
fails, because `:` is not a digit — hence the shape below. -/
def colonDigits : List Char → Option Nat
  | ':' :: t => (digits1 t).map Prod.fst
  | s => (digits1 s).map Prod.fst

/-- Backtracking for `\w+:?(\d+)`: `run` is the maximal word-character run,
`rest` what follows it; try consuming `k` word characters for
`k = run.length, …, 1` in that order. -/
def wordBt (run rest : List Char) : Nat → Option Nat
  | 0 => none
  | k + 1 =>
    match colonDigits (run.drop (k + 1) ++ rest) with
    | some v => some v
    | none => wordBt run rest k

/-- Pattern `Subpanel:(\d+)\s+\w+:?(\d+)` anchored at the current position. -/
def matchP2At (s : List Char) : Option (Nat × Nat) := do
  let s1 ← stripLit "subpanel:".toList s
  let (g1, s2) ← digits1 s1
  let s3 ← ws1 s2
  let run := s3.takeWhile isWordChar
  if run.isEmpty then none
  else (wordBt run (s3.dropWhile isWordChar) run.length).map (fun g2 => (g1, g2))

/-- Model of `re.search`: try the anchored matcher at each start position, leftmost
success wins. -/
def searchWith (f : List Char → Option (Nat × Nat)) : List Char → Option (Nat × Nat)
  | [] => f []
  | c :: t =>
    match f (c :: t) with
    | some r => some r
    | none => searchWith f t

/-- The Field Extractor (source lines 121-137): pattern 1 first, pattern 2 as
fallback, `(None, None)` when neither matches.  The `int()` conversions of
the captures cannot fail on `\d+` captures, so the `try/except` arms of the
source are dead code. -/
def extractPair (v : List Char) : Option Nat × Option Nat :=
  match searchWith matchP1At (v.map Char.toLower) with
  | some (a, b) => (some a, some b)
  | none =>
    match searchWith matchP2At (v.map Char.toLower) with
    | some (a, b) => (some a, some b)
    | none => (none, none)

/-! ### Python dicts as insertion-ordered association lists

`dinsert` is `d[k] = v` (overwrite in place, new keys appended at the end);
`updD k dflt f` is `f` applied to `d.setdefault(k, dflt)` — because
`setdefault` returns an aliased reference, the Python sequence
`pd = ps.setdefault(k, {}); mutate pd` is exactly `updD k {} mutate ps`. -/

section Dicts

variable {α : Type} {β : Type} [DecidableEq α]

def dLookup (k : α) : List (α × β) → Option β
  | [] => none
  | (k', v) :: t => if k' = k then some v else dLookup k t

def dinsert (k : α) (v : β) : List (α × β) → List (α × β)
  | [] => [(k, v)]
  | (k', v') :: t => if k' = k then (k, v) :: t else (k', v') :: dinsert k v t

def updD (k : α) (dflt : β) (f : β → β) : List (α × β) → List (α × β)
  | [] => [(k, f dflt)]
  | (k', v') :: t => if k' = k then (k', f v') :: t else (k', v') :: updD k dflt f t

def keysOf (l : List (α × β)) : List α := l.map Prod.fst

end Dicts

/-! ### Data model (the nested dictionaries of `parse_door_config`) -/

/-- One hardware point: `{'subpanel': …, 'address': …, 'raw': …}`. -/
structure HW where
  subpanel : Option Nat
  address : Option Nat
  raw : String
deriving DecidableEq, Repr

/-- One door: `{'door_index': …, 'hardware': …}`.  `door_index` is `-1`
when unresolved, hence an integer. -/
structure Door where
  door_index : Int
  hardware : List (String × HW)
deriving DecidableEq, Repr

/-- One CSV row; each pandas cell is `none` when the cell is NaN. -/
structure Row where
  name : Option String
  value : Option String
deriving DecidableEq, Repr

abbrev SubpanelT := List (String × Door)
abbrev PanelT := List (Int × SubpanelT)
abbrev PanelsT := List (String × PanelT)

/-! ### `parse_door_config` (source lines 89-161) -/

def sentinelName : String := "Configuration and Communication Settings"

/-- The six recognized hardware field names (source line 119). -/
def kindsList : List String :=
  ["Reader", "Alternate Reader", "Door Position", "Strike", "Rex #1", "Rex #2"]

/-- The resolution priority order (source line 147), also the label order
(source line 300). -/
def priorityKinds : List String :=
  ["Reader", "Door Position", "Strike", "Rex #1", "Rex #2"]

/-- Build one hardware record from a raw field value (source lines 120-142):
`raw_value = str(row['Value']) if pd.notna(row['Value']) else ''`. -/
def mkHW (raw : String) : HW :=
  ⟨(extractPair raw.toList).1, (extractPair raw.toList).2, raw⟩

/-- One iteration of the hardware scan (source lines 116-142). -/
def hwStep (hd : List (String × HW)) (r : Row) : List (String × HW) :=
  match r.name with
  | some nm => if nm ∈ kindsList then dinsert nm (mkHW (r.value.getD "")) hd else hd
  | none => hd

/-- The hardware mapping of one door section (source lines 112-142): rows
strictly after the first row named `Hardware`, scanned once. -/
def hardwareOf (block : List Row) : List (String × HW) :=
  match block.findIdx? (fun r => decide (r.name = some "Hardware")) with
  | none => []
  | some h0 => (block.drop (h0 + 1)).foldl hwStep []

/-- The `for key in [...] / break` loop of source lines 144-151, generic in
the remaining priority list. -/
def resolveAux (hd : List (String × HW)) : List String → Int × Int
  | [] => (-1, -1)
  | k :: t =>
    match dLookup k hd with
    | some info =>
      match info.subpanel with
      | some s => ((s : Int), match info.address with
                             | some a => (a : Int)
                             | none => -1)
      | none => resolveAux hd t
    | none => resolveAux hd t

/-- Computes `(subpanel_num, door_index)` for a door (source lines 144-151). -/
def resolveSubDoor (hd : List (String × HW)) : Int × Int :=
  resolveAux hd priorityKinds

/-- Slice `df.loc[header_index:end_cfg - 1]`: the rows of one door section,
`header = start_cfg - 1` (inclusive label slice). -/
def blockOf (rows : List Row) (s e : Nat) : List Row :=
  (rows.drop (s - 1)).take (e - (s - 1))

/-- Filter `block[block['Name'] == 'Panel']` (source line 106). -/
def panelRowsOf (rows : List Row) (s e : Nat) : List Row :=
  (blockOf rows s e).filter (fun r => decide (r.name = some "Panel"))

/-- Everything `parse_door_config` computes for one section before the
insert: `some (panel_name, subpanel_num, door_name, door)`, or `none` when
the section is skipped (`header_index < 0`, i.e. the sentinel sits at row 0,
or no `Panel` row). -/
def sectionOutcome (rows : List Row) (se : Nat × Nat) :
    Option (String × Int × String × Door) :=
  if se.1 = 0 then none
  else
    match (panelRowsOf rows se.1 se.2).head? with
    | none => none
    | some pr =>
      let panel_name := pyStrip (cellStr pr.value)
      let door_name :=
        match rows.get? (se.1 - 1) with
        | some r => cellStr r.name
        | none => "nan"
      let hd := hardwareOf (blockOf rows se.1 se.2)
      let rs := resolveSubDoor hd
      some (panel_name, rs.1, door_name, ⟨rs.2, hd⟩)

/-- The insert of source lines 153-158 (`setdefault` twice, then dict
assignment), or no change for a skipped section. -/
def stepSection (rows : List Row) (ps : PanelsT) (se : Nat × Nat) : PanelsT :=
  match sectionOutcome rows se with
  | none => ps
  | some (p, sp, dn, d) => updD p [] (updD sp [] (dinsert dn d)) ps

/-- Indices of the sentinel rows (source line 91). -/
def cfgIndicesAux : Nat → List Row → List Nat
  | _, [] => []
  | i, r :: t =>
    if r.name = some sentinelName then i :: cfgIndicesAux (i + 1) t
    else cfgIndicesAux (i + 1) t

/-- List `cfg_indices` with the appended sentinel `len(df)` (source line 92). -/
def cfgIndices (rows : List Row) : List Nat :=
  cfgIndicesAux 0 rows ++ [rows.length]

/-- Consecutive pairs, i.e. the `(start_cfg, end_cfg)` pairs of the loop on
source line 96. -/
def pairsOf : List Nat → List (Nat × Nat)
  | a :: b :: t => (a, b) :: pairsOf (b :: t)
  | _ => []

def sectionsOf (rows : List Row) : List (Nat × Nat) :=
  pairsOf (cfgIndices rows)

/-- Function `parse_door_config` (source lines 89-161) over the row list of the CSV. -/
def parse_door_config (rows : List Row) : PanelsT :=
  (sectionsOf rows).foldl (stepSection rows) []

/-- Triple lookup `panels_structure[p][sp][dn]`. -/
def lookup3 (ps : PanelsT) (p : String) (sp : Int) (dn : String) : Option Door :=
  ((dLookup p ps).bind (fun pd => dLookup sp pd)).bind (fun sd => dLookup dn sd)

/-! ### Door labels (source lines 296-313) -/

/-- Python `str.replace` (all non-overlapping occurrences, left to right),
for a non-empty pattern; the empty pattern never occurs in the source.  The
`Nat` argument is fuel bounding the number of scan steps (each step consumes
at least one character, so `s.length` is always enough); it makes the
recursion structural so that the kernel can evaluate it. -/
def repListF (pat rep : List Char) : Nat → List Char → List Char
  | _, [] => []
  | 0, s => s
  | fuel + 1, c :: t =>
    if !pat.isEmpty && startsWithList pat (c :: t) then
      rep ++ repListF pat rep fuel (t.drop (pat.length - 1))
    else
      c :: repListF pat rep fuel t

def repList (pat rep s : List Char) : List Char :=
  repListF pat rep s.length s

def pyReplace (s pat rep : String) : String :=
  ⟨repList pat.data rep.data s.data⟩

example : pyReplace "Door Position" "Door Position" "DPOS" = "DPOS" := by decide

example : pyReplace "aXbXc" "X" "YY" = "aYYbYYc" := by decide

/-- The chained `.replace` calls of source lines 305-311. -/
def shortOf (k : String) : String :=
  pyReplace
    (pyReplace
      (pyReplace
        (pyReplace
          (pyReplace k "Door Position" "DPOS")
          "Strike" "LOCK Output")
        "Rex #1" "REX1 Input")
      "Rex #2" "REX2 Input")
    "Reader" "RDR Output"

/-- The label lines composed inside a door box (source lines 296-313). -/
def doorLabel (door_name : String) (d : Door) : List String :=
  let l0 := [door_name]
  let l1 :=
    if d.door_index > 0 then l0 ++ ["Addr: " ++ toString d.door_index] else l0
  l1 ++ priorityKinds.flatMap (fun k =>
    match dLookup k d.hardware with
    | none => []
    | some info =>
      match info.address with
      | none => []
      | some a => if a > 0 then [shortOf k ++ ":" ++ toString a] else [])

/-! ### Door ordering (source lines 271-275) -/

/-- The sort key of source line 274: `door_index` when non-negative, else the
sentinel `99`. -/
def sortKey (kv : String × Door) : Int :=
  if kv.2.door_index ≥ 0 then kv.2.door_index else 99

def insBy {α : Type} (key : α → Int) (a : α) : List α → List α
  | [] => [a]
  | b :: t => if key a ≤ key b then a :: b :: t else b :: insBy key a t

/-- Stable insertion sort.  Python's `sorted` is a stable sort by the given
key; any stable sort by the same key produces the same list, so this is a
faithful model of `sorted(..., key=...)`. -/
def isortBy {α : Type} (key : α → Int) : List α → List α
  | [] => []
  | a :: t => insBy key a (isortBy key t)

/-- Call `sorted(doors.items(), key=lambda kv: ...)` (source lines 272-275). -/
def sortDoorItems (doors : SubpanelT) : SubpanelT :=
  isortBy sortKey doors

/-! ### Geometry (source lines 186-328), with exact rationals for the
matplotlib floats -/

structure Box where
  x : ℚ
  y : ℚ
  w : ℚ
  h : ℚ
deriving DecidableEq, Repr

/-- Call `FancyBboxPatch((cx - w/2, cy - h/2), w, h)`: a box of size `w × h`
centred at `(cx, cy)`, anchored at its lower-left corner. -/
def mkBoxCentered (cx cy w h : ℚ) : Box :=
  ⟨cx - w / 2, cy - h / 2, w, h⟩

structure DoorCell where
  dname : String
  box : Box
  label : List String
deriving DecidableEq, Repr

structure Column where
  sp : Int
  box : Box
  cells : List DoorCell
deriving DecidableEq, Repr

structure Layout where
  panelName : String
  panelBox : Box
  columns : List Column
deriving DecidableEq, Repr

/-- The main panel box (source lines 197-208). -/
def panelBoxDef : Box :=
  mkBoxCentered 0.5 0.95 0.4 0.08

/-- The door boxes of one subpanel column: the `y_cursor` loop of source
lines 276-322, one cell per door in sorted order. -/
def doorCells (cx dw dh gap : ℚ) : ℚ → SubpanelT → List DoorCell
  | _, [] => []
  | y, (nm, d) :: t =>
    ⟨nm, mkBoxCentered cx y dw dh, doorLabel nm d⟩ ::
      doorCells cx dw dh gap (y - (dh + gap)) t

/-- One subpanel column (source lines 222-322): the subpanel box plus its
door cells.  A subpanel with zero doors keeps its box and has no cells
(`continue` on source line 264). -/
def mkColumn (n i : Nat) (sp : Int) (doors : SubpanelT) : Column :=
  let colStart : ℚ := (i : ℚ) / (n : ℚ)
  let colEnd : ℚ := ((i : ℚ) + 1) / (n : ℚ)
  let cx := (colStart + colEnd) / 2
  let subW := (colEnd - colStart) * 0.8
  let box := mkBoxCentered cx 0.75 subW 0.1
  let m := doors.length
  let cells :=
    if m = 0 then []
    else
      let dh := (0.6 - 0.1) / (m : ℚ) * 0.8
      let gap := (0.6 - 0.1) / (m : ℚ) * 0.2
      doorCells cx (subW * 0.9) dh gap (0.6 - dh / 2) (sortDoorItems doors)
  ⟨sp, box, cells⟩

/-- The `for i, sp in enumerate(subpanel_numbers)` loop (source line 222). -/
def columnsFrom (subpanels : PanelT) (n : Nat) : Nat → List Int → List Column
  | _, [] => []
  | i, sp :: t =>
    mkColumn n i sp ((dLookup sp subpanels).getD []) ::
      columnsFrom subpanels n (i + 1) t

/-- Function `draw_panel_diagram` (source lines 164-328) reduced to the layout it
emits: `none` models the early `return` for zero subpanels (no figure, no
file); connector lines and the PNG backend are outside the model. -/
def draw_panel_diagram (panel_name : String) (subpanels : PanelT) : Option Layout :=
  if subpanels.length = 0 then none
  else
    some ⟨panel_name, panelBoxDef,
      columnsFrom subpanels subpanels.length 0
        (isortBy (fun x => x) (keysOf subpanels))⟩

/-! ## Association-list lemmas -/

section DictLemmas

variable {α : Type} {β : Type} [DecidableEq α]

theorem dLookup_updD_self (k : α) (dflt : β) (f : β → β) :
    ∀ l : List (α × β),
      dLookup k (updD k dflt f l) = some (f ((dLookup k l).getD dflt)) := by
  intro l
  induction l with
  | nil => simp [updD, dLookup]
  | cons hd t ih =>
    obtain ⟨k', v'⟩ := hd
    by_cases h : k' = k
    · subst h
      simp [updD, dLookup]
    · simp [updD, dLookup, h, ih]

theorem dLookup_updD_ne (k q : α) (dflt : β) (f : β → β) (hne : q ≠ k) :
    ∀ l : List (α × β), dLookup q (updD k dflt f l) = dLookup q l := by
  intro l
  induction l with
  | nil => simp [updD, dLookup, Ne.symm hne]
  | cons hd t ih =>
    obtain ⟨k', v'⟩ := hd
    by_cases h : k' = k
    · subst h
      simp [updD, dLookup, Ne.symm hne]
    · simp [updD, dLookup, h, ih]

theorem dLookup_dinsert_self (k : α) (v : β) :
    ∀ l : List (α × β), dLookup k (dinsert k v l) = some v := by
  intro l
  induction l with
  | nil => simp [dinsert, dLookup]
  | cons hd t ih =>
    obtain ⟨k', v'⟩ := hd
    by_cases h : k' = k
    · subst h
      simp [dinsert, dLookup]
    · simp [dinsert, dLookup, h, ih]

theorem dLookup_dinsert_ne (k q : α) (v : β) (hne : q ≠ k) :
    ∀ l : List (α × β), dLookup q (dinsert k v l) = dLookup q l := by
  intro l
  induction l with
  | nil => simp [dinsert, dLookup, Ne.symm hne]
  | cons hd t ih =>
    obtain ⟨k', v'⟩ := hd
    by_cases h : k' = k
    · subst h
      simp [dinsert, dLookup, Ne.symm hne]
    · simp [dinsert, dLookup, h, ih]

end DictLemmas

/-! ## Claim C8: a panel with zero subpanels produces no layout -/

/-- Claim C8: invoking the layout operation on a panel with zero subpanels
produces no layout and no output artifact (`none`), and — the embedding
being a total function — raises no exception (source lines 186-188). -/
theorem claim_C8 : ∀ panel_name : String, draw_panel_diagram panel_name [] = none := by
  intro panel_name
  rfl

/-! ## Claim C2: resolution of `(subpanel_num, door_index)` -/

/-- The resolution rule as worded by the spec: scan the hardware kinds in
priority order, take the first whose extracted subpanel is present;
`door_index` is that kind's address, with `-1` for an absent address; both
`-1` when no kind yields a subpanel. -/
def resolveSpec (hd : List (String × HW)) : Int × Int :=
  match priorityKinds.find? (fun k => ((dLookup k hd).bind HW.subpanel).isSome) with
  | none => (-1, -1)
  | some k =>
    match dLookup k hd with
    | some info =>
      ((match info.subpanel with | some s => (s : Int) | none => -1),
       (match info.address with | some a => (a : Int) | none => -1))
    | none => (-1, -1)

theorem resolveAux_eq_find (hd : List (String × HW)) :
    ∀ l : List String,
      resolveAux hd l =
        match l.find? (fun k => ((dLookup k hd).bind HW.subpanel).isSome) with
        | none => (-1, -1)
        | some k =>
          match dLookup k hd with
          | some info =>
            ((match info.subpanel with | some s => (s : Int) | none => -1),
             (match info.address with | some a => (a : Int) | none => -1))
          | none => (-1, -1) := by
  intro l
  induction l with
  | nil => rfl
  | cons k t ih =>
    cases hk : dLookup k hd with
    | none =>
      simp only [resolveAux, hk, List.find?, Option.bind, Option.isSome]
      exact ih
    | some info =>
      cases hs : info.subpanel with
      | none =>
        simp only [resolveAux, hk, hs, List.find?, Option.bind, Option.isSome]
        exact ih
      | some s =>
        simp only [resolveAux, hk, hs, List.find?, Option.bind, Option.isSome]

/-- Claim C2: for every hardware mapping, the code's `(subpanel_num,
door_index)` computation (source lines 144-151, embedded as
`resolveSubDoor`) agrees with the spec's priority-scan description
(`resolveSpec`). -/
theorem claim_C2 : ∀ hd : List (String × HW), resolveSubDoor hd = resolveSpec hd := by
  intro hd
  exact resolveAux_eq_find hd priorityKinds

/-! ## Claim C7: malformed sections are skipped, the rest is processed -/

/-- Claim C7: a section whose sentinel sits at row 0 (no preceding name
row) and a section without any `Panel` row contribute nothing, and the
parse is a fold over every section, so it continues past any skipped
section; the embedding is total, so no exception is raised. -/
theorem claim_C7 : ∀ rows : List Row,
    parse_door_config rows = (sectionsOf rows).foldl (stepSection rows) [] ∧
    (∀ (ps : PanelsT) (e : Nat), stepSection rows ps (0, e) = ps) ∧
    (∀ (ps : PanelsT) (s e : Nat),
      panelRowsOf rows s e = [] → stepSection rows ps (s, e) = ps) := by
  intro rows
  refine ⟨rfl, fun ps e => rfl, fun ps s e h => ?_⟩
  by_cases hs : s = 0
  · subst hs
    rfl
  · simp [stepSection, sectionOutcome, hs, h]

/-- Witness for claim C7 at a concrete table: a section with no `Panel` row
is skipped. -/
theorem claim_C7_witness :
    stepSection [⟨some "Door A", none⟩, ⟨some sentinelName, none⟩,
                 ⟨some "NotAPanel", some "x"⟩] [] (1, 3) = [] :=
  (claim_C7 _).2.2 [] 1 3 (by decide)

/-! ## Claim C9: door label composition -/

/-- The abbreviation table as worded by the spec claim: Door Position→DPOS,
Strike→LOCK Output, Rex #1→REX1 Input, Rex #2→REX2 Input, Reader→RDR
Output. -/
def shortTable (k : String) : String :=
  if k = "Reader" then "RDR Output"
  else if k = "Door Position" then "DPOS"
  else if k = "Strike" then "LOCK Output"
  else if k = "Rex #1" then "REX1 Input"
  else if k = "Rex #2" then "REX2 Input"
  else k

/-- The door label as worded by the spec claim: the door name; an address
line iff `door_index > 0`; then one abbreviated line per present hardware
kind with a present, positive address, in the fixed five-kind order. -/
def doorLabelSpec (door_name : String) (d : Door) : List String :=
  door_name ::
    ((if d.door_index > 0 then ["Addr: " ++ toString d.door_index] else []) ++
     priorityKinds.flatMap (fun k =>
       match dLookup k d.hardware with
       | none => []
       | some info =>
         match info.address with
         | none => []
         | some a => if a > 0 then [shortTable k ++ ":" ++ toString a] else []))

theorem shortOf_reader : shortOf "Reader" = "RDR Output" := by decide

theorem shortOf_dpos : shortOf "Door Position" = "DPOS" := by decide

theorem shortOf_strike : shortOf "Strike" = "LOCK Output" := by decide

theorem shortOf_rex1 : shortOf "Rex #1" = "REX1 Input" := by decide

theorem shortOf_rex2 : shortOf "Rex #2" = "REX2 Input" := by decide

/-- Claim C9: for every door, the rendered label (source lines 296-313,
embedded as `doorLabel`) equals the spec's description (`doorLabelSpec`);
moreover an `Alternate Reader` hardware entry never contributes a line:
writing any `Alternate Reader` record into the hardware mapping leaves the
label unchanged. -/
theorem claim_C9 : ∀ (nm : String) (d : Door) (hw : HW),
    doorLabel nm d = doorLabelSpec nm d ∧
    doorLabel nm ⟨d.door_index, dinsert "Alternate Reader" hw d.hardware⟩ =
      doorLabel nm d := by
  intro nm d hw
  constructor
  · simp only [doorLabel, doorLabelSpec, priorityKinds,
      List.flatMap_cons, List.flatMap_nil,
      shortOf_reader, shortOf_dpos, shortOf_strike, shortOf_rex1, shortOf_rex2,
      shortTable]
    by_cases h : d.door_index > 0 <;> simp [h, shortTable]
  · simp only [doorLabel, priorityKinds, List.flatMap_cons, List.flatMap_nil]
    rw [dLookup_dinsert_ne _ _ _ (by decide), dLookup_dinsert_ne _ _ _ (by decide),
        dLookup_dinsert_ne _ _ _ (by decide), dLookup_dinsert_ne _ _ _ (by decide),
        dLookup_dinsert_ne _ _ _ (by decide)]

/-! ## Claim C1: the Field Extractor on the three spec scenarios -/

/-- Counterexample to claim C1 as stated: the text
`"subpanel 3 Address 125"` contains `"subpanel 3 Address 12"` (same casing),
yet the extractor returns `(subpanel=3, address=125)` — the greedy `(\d+)`
capture does not stop at `12` — so "any text containing the phrase" does not
imply the result `(3, 12)`. -/
theorem claim_C1_counterexample :
    containsSub "subpanel 3 Address 12".toList "subpanel 3 Address 125".toList = true ∧
    extractPair "subpanel 3 Address 125".toList = (some 3, some 125) := by
  constructor
  · decide
  · decide

/-- Claim C1 (amended): for any text that is exactly
`"subpanel 3 Address 12"` up to casing the extractor returns `(3, 12)`; for
any text that is exactly `"Subpanel:2 Input:5"` up to casing it returns
`(2, 5)`; for any text on which neither pattern finds a match it returns
`(None, None)`; and the `raw` field always records the original string
unmodified. -/
theorem claim_C1_amended : ∀ v : List Char,
    (v.map Char.toLower = "subpanel 3 address 12".toList →
      extractPair v = (some 3, some 12)) ∧
    (v.map Char.toLower = "subpanel:2 input:5".toList →
      extractPair v = (some 2, some 5)) ∧
    (searchWith matchP1At (v.map Char.toLower) = none →
      searchWith matchP2At (v.map Char.toLower) = none →
      extractPair v = (none, none)) ∧
    (∀ s : String, (mkHW s).raw = s) := by
  intro v
  refine ⟨fun h => ?_, fun h => ?_, fun h1 h2 => ?_, fun s => rfl⟩
  · unfold extractPair
    rw [h]
    decide
  · unfold extractPair
    rw [h]
    decide
  · unfold extractPair
    rw [h1, h2]

/-- Witness for claim C1 at concrete casings of the three scenarios. -/
theorem claim_C1_amended_witness :
    extractPair "SubPanel 3 ADDRESS 12".toList = (some 3, some 12) ∧
    extractPair "Subpanel:2 Input:5".toList = (some 2, some 5) ∧
    extractPair "no pattern here".toList = (none, none) :=
  ⟨(claim_C1_amended _).1 (by decide),
   (claim_C1_amended _).2.1 (by decide),
   (claim_C1_amended _).2.2.1 (by decide) (by decide)⟩

/-! ## Claim C6: anatomy of the first pattern -/

theorem not_digit_of_space (c : Char) (h : isSpaceChar c = true) :
    c.isDigit = false := by
  simp only [isSpaceChar, Bool.or_eq_true, decide_eq_true_eq] at h
  rcases h with ((((h | h) | h) | h) | h) | h <;> subst h <;> decide

theorem dropWhile_append_all {p : Char → Bool} :
    ∀ a r : List Char, (∀ c ∈ a, p c = true) →
      List.dropWhile p (a ++ r) = List.dropWhile p r := by
  intro a r ha
  induction a with
  | nil => rfl
  | cons c t ih =>
    have hc : p c = true := ha c (List.mem_cons_self c t)
    simp only [List.cons_append, List.dropWhile_cons, hc, if_true]
    exact ih fun x hx => ha x (List.mem_cons_of_mem c hx)

theorem dropWhile_head_stop {p : Char → Bool} :
    ∀ r : List Char, (∀ c, r.head? = some c → p c = false) →
      List.dropWhile p r = r := by
  intro r hr
  cases r with
  | nil => rfl
  | cons c t => simp [List.dropWhile_cons, hr c rfl]

theorem takeWhile_append_all {p : Char → Bool} :
    ∀ a r : List Char, (∀ c ∈ a, p c = true) →
      (∀ c, r.head? = some c → p c = false) →
      List.takeWhile p (a ++ r) = a := by
  intro a r ha hr
  induction a with
  | nil =>
    cases r with
    | nil => rfl
    | cons c t => simp [List.takeWhile_cons, hr c rfl]
  | cons c t ih =>
    have hc : p c = true := ha c (List.mem_cons_self c t)
    simp only [List.cons_append, List.takeWhile_cons, hc, if_true, List.cons.injEq,
      true_and]
    exact ih fun x hx => ha x (List.mem_cons_of_mem c hx)

theorem stripLit_self : ∀ l s : List Char, stripLit l (l ++ s) = some s := by
  intro l s
  induction l with
  | nil => rfl
  | cons p ps ih => simp [stripLit, ih]

theorem ws1_all (w r : List Char) (hw : w ≠ [])
    (hall : ∀ c ∈ w, isSpaceChar c = true)
    (hr : ∀ c, r.head? = some c → isSpaceChar c = false) :
    ws1 (w ++ r) = some r := by
  cases w with
  | nil => exact absurd rfl hw
  | cons c t =>
    have hc : isSpaceChar c = true := hall c (List.mem_cons_self c t)
    simp only [List.cons_append, ws1, hc, if_true, Option.some.injEq]
    rw [dropWhile_append_all t r fun x hx => hall x (List.mem_cons_of_mem c hx)]
    exact dropWhile_head_stop r hr

theorem digits1_all (dl r : List Char) (hd : dl ≠ [])
    (hall : ∀ c ∈ dl, c.isDigit = true)
    (hr : ∀ c, r.head? = some c → c.isDigit = false) :
    digits1 (dl ++ r) = some (natOfDigits dl, r) := by
  cases dl with
  | nil => exact absurd rfl hd
  | cons c t =>
    have hc : c.isDigit = true := hall c (List.mem_cons_self c t)
    have htail : ∀ x ∈ t, x.isDigit = true :=
      fun x hx => hall x (List.mem_cons_of_mem c hx)
    have et : List.takeWhile Char.isDigit (c :: (t ++ r)) = c :: t := by
      rw [List.takeWhile_cons, hc, if_pos rfl, takeWhile_append_all t r htail hr]
    have ed : List.dropWhile Char.isDigit (c :: (t ++ r)) = r := by
      rw [List.dropWhile_cons, hc, if_pos rfl, dropWhile_append_all t r htail]
      exact dropWhile_head_stop r hr
    simp only [List.cons_append, digits1, hc, if_true, et, ed]

/-- When the anchored matcher succeeds at the current position, `re.search`
returns that match. -/
theorem searchWith_of_match_head (f : List Char → Option (Nat × Nat))
    (l : List Char) (r : Nat × Nat) (h : f l = some r) :
    searchWith f l = some r := by
  cases l with
  | nil => simpa [searchWith] using h
  | cons c t => simp [searchWith, h]

/-- When the anchored matcher fails at every position strictly inside `pre`,
`re.search` on `pre ++ rest` is `re.search` on `rest`: the leftmost match is
not in the prefix. -/
theorem searchWith_eq_of_none_before (f : List Char → Option (Nat × Nat)) :
    ∀ (pre rest : List Char),
      (∀ i, i < pre.length → f ((pre ++ rest).drop i) = none) →
      searchWith f (pre ++ rest) = searchWith f rest := by
  intro pre
  induction pre with
  | nil => intro rest h; rfl
  | cons c p ih =>
    intro rest h
    have h0 : f (c :: (p ++ rest)) = none := by
      have := h 0 (by simp)
      simpa using this
    simp only [List.cons_append, searchWith, List.append_eq, h0]
    refine ih rest ?_
    intro i hi
    have := h (i + 1) (by simp only [List.length_cons]; omega)
    simpa using this

/-- A head-of-list helper: the head of `w ++ r` with `w` nonempty whitespace
is not a digit, and similarly for digit runs. -/
theorem head_append_space (w r : List Char) (hw : w ≠ [])
    (hall : ∀ c ∈ w, isSpaceChar c = true) :
    ∀ c, (w ++ r).head? = some c → c.isDigit = false := by
  cases w with
  | nil => exact absurd rfl hw
  | cons a t =>
    intro c hc
    have hac : a = c := by simpa using hc
    rw [← hac]
    exact not_digit_of_space a (hall a (List.mem_cons_self a t))

theorem head_append_digit (dl r : List Char) (hd : dl ≠ [])
    (hall : ∀ c ∈ dl, c.isDigit = true) :
    ∀ c, (dl ++ r).head? = some c → isSpaceChar c = false := by
  cases dl with
  | nil => exact absurd rfl hd
  | cons a t =>
    intro c hc
    have hac : a = c := by simpa using hc
    rw [← hac]
    have ha := hall a (List.mem_cons_self a t)
    cases hsp : isSpaceChar a with
    | false => rfl
    | true => rw [not_digit_of_space a hsp] at ha; exact absurd ha (by decide)

/-- Pattern 1 succeeds at a position where `subpanel`, whitespace, digits,
whitespace, `address`, whitespace, digits occur consecutively, and it
captures exactly those two digit runs (the runs are maximal: `w2` follows
the first, and `s` does not start with a digit after the second). -/
theorem matchP1At_exact (w1 d1 w2 w3 d2 s : List Char)
    (hw1 : w1 ≠ []) (ha1 : ∀ c ∈ w1, isSpaceChar c = true)
    (hd1 : d1 ≠ []) (hb1 : ∀ c ∈ d1, c.isDigit = true)
    (hw2 : w2 ≠ []) (ha2 : ∀ c ∈ w2, isSpaceChar c = true)
    (hw3 : w3 ≠ []) (ha3 : ∀ c ∈ w3, isSpaceChar c = true)
    (hd2 : d2 ≠ []) (hb2 : ∀ c ∈ d2, c.isDigit = true)
    (hs : ∀ c, s.head? = some c → c.isDigit = false) :
    matchP1At
        ("subpanel".toList ++ (w1 ++ (d1 ++ (w2 ++
          ("address".toList ++ (w3 ++ (d2 ++ s))))))) =
      some (natOfDigits d1, natOfDigits d2) := by
  have e1 := stripLit_self "subpanel".toList
      (w1 ++ (d1 ++ (w2 ++ ("address".toList ++ (w3 ++ (d2 ++ s))))))
  have e2 : ws1 (w1 ++ (d1 ++ (w2 ++ ("address".toList ++ (w3 ++ (d2 ++ s)))))) =
      some (d1 ++ (w2 ++ ("address".toList ++ (w3 ++ (d2 ++ s))))) :=
    ws1_all _ _ hw1 ha1 (head_append_digit d1 _ hd1 hb1)
  have e3 : digits1 (d1 ++ (w2 ++ ("address".toList ++ (w3 ++ (d2 ++ s))))) =
      some (natOfDigits d1, w2 ++ ("address".toList ++ (w3 ++ (d2 ++ s)))) :=
    digits1_all _ _ hd1 hb1 (head_append_space w2 _ hw2 ha2)
  have e4 : ws1 (w2 ++ ("address".toList ++ (w3 ++ (d2 ++ s)))) =
      some ("address".toList ++ (w3 ++ (d2 ++ s))) :=
    ws1_all _ _ hw2 ha2 (by intro c hc; simp at hc; subst hc; decide)
  have e5 := stripLit_self "address".toList (w3 ++ (d2 ++ s))
  have e6 : ws1 (w3 ++ (d2 ++ s)) = some (d2 ++ s) :=
    ws1_all _ _ hw3 ha3 (head_append_digit d2 _ hd2 hb2)
  have e7 : digits1 (d2 ++ s) = some (natOfDigits d2, s) :=
    digits1_all _ _ hd2 hb2 hs
  unfold matchP1At
  simp only [e1, e2, e3, e4, e5, e6, e7, Option.bind_eq_bind, Option.some_bind]
  rfl

/-- Counterexample to claim C6 as stated: with intervening non-whitespace
text between the captured integer and the literal `Address`, the first
pattern does not match (it requires whitespace-only separation), and here
the second pattern cannot apply either, so the extractor yields
`(None, None)` instead of `(3, 12)`. -/
theorem claim_C6_counterexample :
    containsSub "subpanel 3".toList "subpanel 3 x Address 12".toList = true ∧
    containsSub "Address 12".toList "subpanel 3 x Address 12".toList = true ∧
    extractPair "subpanel 3 x Address 12".toList = (none, none) := by
  refine ⟨by decide, by decide, by decide⟩

/-- Claim C6 (amended): for every text that contains (after any prefix, in
any casing) the literal word `subpanel`, whitespace, an integer, whitespace,
the literal word `Address`, whitespace and an integer — whitespace-only
separation between the parts, the integers being full digit runs — the
first pattern matches, and it captures `(subpanel, address)` from the first
such occurrence: when no earlier position matches pattern 1, the search
returns exactly the two integers of this occurrence and the extractor
returns them as its `(subpanel, address)` pair. -/
theorem claim_C6_amended :
    ∀ (text p w1 d1 w2 w3 d2 s : List Char),
      text.map Char.toLower =
        p ++ ("subpanel".toList ++ (w1 ++ (d1 ++ (w2 ++
          ("address".toList ++ (w3 ++ (d2 ++ s))))))) →
      w1 ≠ [] → (∀ c ∈ w1, isSpaceChar c = true) →
      d1 ≠ [] → (∀ c ∈ d1, c.isDigit = true) →
      w2 ≠ [] → (∀ c ∈ w2, isSpaceChar c = true) →
      w3 ≠ [] → (∀ c ∈ w3, isSpaceChar c = true) →
      d2 ≠ [] → (∀ c ∈ d2, c.isDigit = true) →
      (∀ c, s.head? = some c → c.isDigit = false) →
      (∀ i, i < p.length → matchP1At ((text.map Char.toLower).drop i) = none) →
      searchWith matchP1At (text.map Char.toLower) =
        some (natOfDigits d1, natOfDigits d2) ∧
      extractPair text = (some (natOfDigits d1), some (natOfDigits d2)) := by
  intro text p w1 d1 w2 w3 d2 s htext hw1 ha1 hd1 hb1 hw2 ha2 hw3 ha3 hd2 hb2 hs hfirst
  have hmatch := matchP1At_exact w1 d1 w2 w3 d2 s
    hw1 ha1 hd1 hb1 hw2 ha2 hw3 ha3 hd2 hb2 hs
  have hfirst' : ∀ i, i < p.length →
      matchP1At ((p ++ ("subpanel".toList ++ (w1 ++ (d1 ++ (w2 ++
        ("address".toList ++ (w3 ++ (d2 ++ s)))))))).drop i) = none := by
    intro i hi
    have := hfirst i hi
    rwa [htext] at this
  have hsearch := searchWith_eq_of_none_before matchP1At p
    ("subpanel".toList ++ (w1 ++ (d1 ++ (w2 ++
      ("address".toList ++ (w3 ++ (d2 ++ s))))))) hfirst'
  have hhead := searchWith_of_match_head matchP1At
    ("subpanel".toList ++ (w1 ++ (d1 ++ (w2 ++
      ("address".toList ++ (w3 ++ (d2 ++ s))))))) _ hmatch
  constructor
  · rw [htext, hsearch]
    exact hhead
  · unfold extractPair
    rw [htext, hsearch, hhead]

/-- Witness for claim C6 at a concrete hardware string whose occurrence is
the first match. -/
theorem claim_C6_amended_witness :
    searchWith matchP1At ("Reader on subpanel 3 Address 7".toList.map Char.toLower) =
      some (3, 7) ∧
    extractPair "Reader on subpanel 3 Address 7".toList = (some 3, some 7) :=
  claim_C6_amended "Reader on subpanel 3 Address 7".toList
    "reader on ".toList [' '] ['3'] [' '] [' '] ['7'] []
    (by decide) (by decide) (by decide) (by decide) (by decide)
    (by decide) (by decide) (by decide) (by decide) (by decide) (by decide)
    (by intro c hc; exact Option.noConfusion hc) (by decide)

/-! ## Claim C3: door ordering within a subpanel -/

theorem insBy_perm {α : Type} (key : α → Int) (a : α) :
    ∀ l : List α, (insBy key a l).Perm (a :: l) := by
  intro l
  induction l with
  | nil => exact List.Perm.refl _
  | cons b t ih =>
    by_cases h : key a ≤ key b
    · simp [insBy, h]
    · simp only [insBy, if_neg h]
      exact (ih.cons b).trans (List.Perm.swap a b t)

theorem isortBy_perm {α : Type} (key : α → Int) :
    ∀ l : List α, (isortBy key l).Perm l := by
  intro l
  induction l with
  | nil => exact List.Perm.refl _
  | cons a t ih => exact (insBy_perm key a (isortBy key t)).trans (ih.cons a)

theorem pairwise_insBy {α : Type} (key : α → Int) (a : α) :
    ∀ l : List α, l.Pairwise (fun x y => key x ≤ key y) →
      (insBy key a l).Pairwise (fun x y => key x ≤ key y) := by
  intro l hl
  induction l with
  | nil => simp [insBy]
  | cons b t ih =>
    rcases List.pairwise_cons.mp hl with ⟨hb, ht⟩
    by_cases h : key a ≤ key b
    · simp only [insBy, if_pos h]
      refine List.pairwise_cons.mpr ⟨?_, hl⟩
      intro x hx
      rcases List.mem_cons.mp hx with rfl | hx
      · exact h
      · exact le_trans h (hb x hx)
    · simp only [insBy, if_neg h]
      refine List.pairwise_cons.mpr ⟨?_, ih ht⟩
      intro x hx
      have hx' : x = a ∨ x ∈ t := by
        simpa using (insBy_perm key a t).mem_iff.mp hx
      rcases hx' with rfl | hx'
      · exact le_of_not_le h
      · exact hb x hx'

theorem pairwise_isortBy {α : Type} (key : α → Int) :
    ∀ l : List α, (isortBy key l).Pairwise (fun x y => key x ≤ key y) := by
  intro l
  induction l with
  | nil => simp [isortBy]
  | cons a t ih => exact pairwise_insBy key a (isortBy key t) ih

/-- Holds when `kv` renders as unresolved: its `door_index` is negative. -/
def lowB (kv : String × Door) : Bool := decide (kv.2.door_index < 0)

theorem sortKey_of_low (kv : String × Door) (h : lowB kv = true) : sortKey kv = 99 := by
  have h' : kv.2.door_index < 0 := of_decide_eq_true h
  simp [sortKey, not_le.mpr h']

theorem low_of_99 (kv : String × Door)
    (hk : 0 ≤ kv.2.door_index → kv.2.door_index < 99) (h99 : 99 ≤ sortKey kv) :
    lowB kv = true := by
  by_cases hres : 0 ≤ kv.2.door_index
  · have : sortKey kv = kv.2.door_index := by simp [sortKey, hres]
    rw [this] at h99
    exact absurd (hk hres) (not_lt.mpr h99)
  · exact decide_eq_true (lt_of_not_le hres)

theorem filter_insBy_notlow (a : String × Door) (ha : lowB a = false) :
    ∀ l : SubpanelT, (insBy sortKey a l).filter lowB = l.filter lowB := by
  intro l
  induction l with
  | nil => simp [insBy, List.filter_cons, ha]
  | cons b t ih =>
    by_cases h : sortKey a ≤ sortKey b
    · simp [insBy, h, List.filter_cons, ha]
    · simp only [insBy, if_neg h, List.filter_cons, ih]

theorem filter_insBy_low (a : String × Door) (ha : lowB a = true) :
    ∀ l : SubpanelT, (∀ kv ∈ l, 0 ≤ kv.2.door_index → kv.2.door_index < 99) →
      (insBy sortKey a l).filter lowB = a :: l.filter lowB := by
  intro l H
  induction l with
  | nil => simp [insBy, List.filter_cons, ha]
  | cons b t ih =>
    by_cases h : sortKey a ≤ sortKey b
    · simp [insBy, h, List.filter_cons, ha]
    · have hb : lowB b = false := by
        cases hlb : lowB b with
        | false => rfl
        | true =>
          rw [sortKey_of_low a ha] at h
          rw [sortKey_of_low b hlb] at h
          exact absurd le_rfl h
      simp only [insBy, if_neg h, List.filter_cons, hb, Bool.false_eq_true, if_false]
      exact ih fun kv hkv => H kv (List.mem_cons_of_mem b hkv)

theorem filter_isortBy :
    ∀ l : SubpanelT, (∀ kv ∈ l, 0 ≤ kv.2.door_index → kv.2.door_index < 99) →
      (isortBy sortKey l).filter lowB = l.filter lowB := by
  intro l H
  induction l with
  | nil => rfl
  | cons a t ih =>
    have Ht : ∀ kv ∈ t, 0 ≤ kv.2.door_index → kv.2.door_index < 99 :=
      fun kv hkv => H kv (List.mem_cons_of_mem a hkv)
    have Hs : ∀ kv ∈ isortBy sortKey t, 0 ≤ kv.2.door_index → kv.2.door_index < 99 :=
      fun kv hkv => Ht kv ((isortBy_perm sortKey t).mem_iff.mp hkv)
    cases hlow : lowB a with
    | false =>
      simp only [isortBy, filter_insBy_notlow a hlow, List.filter_cons, hlow,
        Bool.false_eq_true, if_false]
      exact ih Ht
    | true =>
      simp only [isortBy, filter_insBy_low a hlow _ Hs, List.filter_cons, hlow, if_true]
      rw [ih Ht]

/-- The concrete door set of the spec's sorting example: indices
`[5, -1, 2, -1, 1]` in insertion order `a, b, c, d, e`. -/
def exampleDoors : SubpanelT :=
  [("a", ⟨5, []⟩), ("b", ⟨-1, []⟩), ("c", ⟨2, []⟩), ("d", ⟨-1, []⟩), ("e", ⟨1, []⟩)]

/-- Counterexample to claim C3 as stated: the code maps an unresolved
`door_index` to the sentinel `99` during comparison (source line 274), so a
door with resolved index `100` renders *after* an unresolved door —
unresolved doors are not universally sorted last. -/
theorem claim_C3_counterexample :
    (sortDoorItems [("hi", ⟨100, []⟩), ("lo", ⟨-1, []⟩)]).map
        (fun kv => kv.2.door_index) = [-1, 100] ∧
    ¬ ((sortDoorItems [("hi", ⟨100, []⟩), ("lo", ⟨-1, []⟩)]).Pairwise
        (fun a b => a.2.door_index < 0 → b.2.door_index < 0)) := by
  constructor
  · decide
  · intro h
    have e : sortDoorItems [("hi", ⟨100, []⟩), ("lo", ⟨-1, []⟩)] =
        [("lo", ⟨-1, []⟩), ("hi", ⟨100, []⟩)] := by decide
    rw [e] at h
    have hrel := (List.pairwise_cons.mp h).1 ("hi", ⟨100, []⟩) (by simp)
    have h100 : (100 : Int) < 0 := hrel (by decide)
    exact absurd h100 (by decide)

/-- Claim C3 (amended): within a subpanel the doors are rendered stably
sorted by the key "door_index if non-negative else 99"; hence, *provided
every resolved door_index is below the sentinel 99*, the rendered order is
ascending by door_index with unresolved (`-1`) doors last, their original
relative order preserved (their filtered subsequence is unchanged), and no
door is lost or duplicated (the result is a permutation).  The spec's
example `[5, -1, 2, -1, 1] ↦ [1, 2, 5, -1, -1]` is included verbatim. -/
theorem claim_C3_amended : ∀ doors : SubpanelT,
    (∀ kv ∈ doors, 0 ≤ kv.2.door_index → kv.2.door_index < 99) →
    (sortDoorItems doors).Perm doors ∧
    (sortDoorItems doors).Pairwise (fun a b => sortKey a ≤ sortKey b) ∧
    (sortDoorItems doors).Pairwise
      (fun a b => a.2.door_index < 0 → b.2.door_index < 0) ∧
    (sortDoorItems doors).filter lowB = doors.filter lowB ∧
    (sortDoorItems exampleDoors).map Prod.fst = ["e", "c", "a", "b", "d"] ∧
    (sortDoorItems exampleDoors).map (fun kv => kv.2.door_index) =
      [1, 2, 5, -1, -1] := by
  intro doors H
  have hperm : (sortDoorItems doors).Perm doors := isortBy_perm sortKey doors
  have Hs : ∀ kv ∈ sortDoorItems doors, 0 ≤ kv.2.door_index → kv.2.door_index < 99 :=
    fun kv hkv => H kv (hperm.mem_iff.mp hkv)
  refine ⟨hperm, pairwise_isortBy sortKey doors, ?_, filter_isortBy doors H,
    by decide, by decide⟩
  refine (pairwise_isortBy sortKey doors).imp_of_mem ?_
  intro a b ha hb hr hla
  have h99 : sortKey a = 99 := sortKey_of_low a (decide_eq_true hla)
  have : lowB b = true := low_of_99 b (Hs b hb) (h99 ▸ hr)
  exact of_decide_eq_true this

/-- Witness for claim C3 on the spec's example subpanel. -/
theorem claim_C3_amended_witness :
    (sortDoorItems exampleDoors).map (fun kv => kv.2.door_index) =
      [1, 2, 5, -1, -1] :=
  (claim_C3_amended exampleDoors (by decide)).2.2.2.2.2

/-! ## Claim C10: panel names are whitespace-stripped -/

theorem dropWhile_append_split (p : Char → Bool) :
    ∀ v w : List Char,
      List.dropWhile p (v ++ w) =
        if (List.dropWhile p v).isEmpty then List.dropWhile p w
        else List.dropWhile p v ++ w := by
  intro v w
  induction v with
  | nil => simp
  | cons c t ih =>
    cases hc : p c with
    | true => simpa [List.dropWhile_cons, hc] using ih
    | false => simp [List.dropWhile_cons, hc]

/-- Padding a string with whitespace on either side does not change its
`strip`. -/
theorem pyStripList_pad :
    ∀ v w1 w2 : List Char,
      (∀ c ∈ w1, isSpaceChar c = true) → (∀ c ∈ w2, isSpaceChar c = true) →
      pyStripList (w1 ++ v ++ w2) = pyStripList v := by
  intro v w1 w2 h1 h2
  unfold pyStripList
  rw [List.append_assoc, dropWhile_append_all w1 (v ++ w2) h1,
    dropWhile_append_split isSpaceChar v w2]
  cases hv : (List.dropWhile isSpaceChar v).isEmpty with
  | true =>
    have hvnil : List.dropWhile isSpaceChar v = [] := by
      cases hd : List.dropWhile isSpaceChar v with
      | nil => rfl
      | cons a t => rw [hd] at hv; simp at hv
    rw [if_pos rfl, List.dropWhile_eq_nil_iff.mpr h2, hvnil]
  | false =>
    rw [if_neg (by simp [hv]), List.reverse_append,
      dropWhile_append_all _ _ (fun c hc => h2 c (List.mem_reverse.mp hc))]

/-- Claim C10: the panel name recorded for a section is the `Panel` row's
value rendered by `str` and stripped of surrounding whitespace (source line
109); consequently two sections whose `Panel` values differ only in
surrounding whitespace land under the same panel key. -/
theorem claim_C10 :
    (∀ (rows : List Row) (s e : Nat) (p : String) (sp : Int) (dn : String) (d : Door),
       sectionOutcome rows (s, e) = some (p, sp, dn, d) →
       ∃ r : Row, (panelRowsOf rows s e).head? = some r ∧
         p = pyStrip (cellStr r.value)) ∧
    (∀ v w1 w2 : List Char,
       (∀ c ∈ w1, isSpaceChar c = true) → (∀ c ∈ w2, isSpaceChar c = true) →
       pyStripList (w1 ++ v ++ w2) = pyStripList v) := by
  constructor
  · intro rows s e p sp dn d h
    by_cases hs : s = 0
    · subst hs
      simp [sectionOutcome] at h
    · cases hh : (panelRowsOf rows s e).head? with
      | none => simp [sectionOutcome, hs, hh] at h
      | some pr =>
        refine ⟨pr, rfl, ?_⟩
        simp only [sectionOutcome, hs, if_false, hh] at h
        injection h with h1
        have := congrArg Prod.fst h1
        exact this.symm
  · exact pyStripList_pad

/-- Witness for claim C10 at a concrete section and concrete padding. -/
theorem claim_C10_witness :
    (∃ r : Row,
      (panelRowsOf [⟨some "Door A", none⟩, ⟨some sentinelName, none⟩,
                    ⟨some "Panel", some "  Upper "⟩] 1 3).head? = some r ∧
      "Upper" = pyStrip (cellStr r.value)) ∧
    pyStripList ("  ".toList ++ "Upper".toList ++ " ".toList) =
      pyStripList "Upper".toList :=
  ⟨claim_C10.1 [⟨some "Door A", none⟩, ⟨some sentinelName, none⟩,
      ⟨some "Panel", some "  Upper "⟩] 1 3 "Upper" (-1) "Door A" ⟨-1, []⟩ (by decide),
   claim_C10.2 "Upper".toList "  ".toList " ".toList (by decide) (by decide)⟩

/-! ## Claim C5: every parsed door sits in exactly one bucket -/

/-- The door which the *last* section writing to the bucket-and-name `q`
contributes; `none` when no section writes there.  Sections skipped by the
parser (sentinel at row 0, or no `Panel` row) have outcome `none` and so
never contribute. -/
def findLastDoor (rows : List Row) : List (Nat × Nat) → String × Int × String → Option Door
  | [], _ => none
  | sec :: t, q =>
    match findLastDoor rows t q with
    | some d => some d
    | none =>
      match sectionOutcome rows sec with
      | some (p, sp, dn, d) => if (p, sp, dn) = q then some d else none
      | none => none

theorem lookup3_step (rows : List Row) (ps : PanelsT) (se : Nat × Nat)
    (p : String) (sp : Int) (dn : String) :
    lookup3 (stepSection rows ps se) p sp dn =
      match sectionOutcome rows se with
      | some (p0, sp0, dn0, d0) =>
        if (p0, sp0, dn0) = (p, sp, dn) then some d0 else lookup3 ps p sp dn
      | none => lookup3 ps p sp dn := by
  cases ho : sectionOutcome rows se with
  | none => simp [stepSection, ho]
  | some q =>
    obtain ⟨p0, sp0, dn0, d0⟩ := q
    simp only [stepSection, ho]
    by_cases hp : p0 = p
    · subst hp
      unfold lookup3
      rw [dLookup_updD_self]
      by_cases hsp : sp0 = sp
      · subst hsp
        rw [Option.some_bind, dLookup_updD_self]
        by_cases hdn : dn0 = dn
        · subst hdn
          rw [Option.some_bind, dLookup_dinsert_self, if_pos rfl]
        · rw [Option.some_bind, dLookup_dinsert_ne _ _ _ (fun h => hdn h.symm),
            if_neg (by simp [hdn])]
          cases hpd : dLookup p0 ps with
          | none => simp [dLookup]
          | some pd =>
            simp only [Option.getD_some, Option.some_bind]
            cases hsd : dLookup sp0 pd with
            | none => simp [dLookup]
            | some sd => simp
      · rw [Option.some_bind, dLookup_updD_ne _ _ _ _ (fun h => hsp h.symm),
          if_neg (by simp [hsp])]
        cases hpd : dLookup p0 ps with
        | none => simp [dLookup]
        | some pd => simp
    · unfold lookup3
      rw [dLookup_updD_ne _ _ _ _ (fun h => hp h.symm), if_neg (by simp [hp])]

theorem lookup3_foldl (rows : List Row) :
    ∀ (secs : List (Nat × Nat)) (ps : PanelsT) (p : String) (sp : Int) (dn : String),
      lookup3 (secs.foldl (stepSection rows) ps) p sp dn =
        match findLastDoor rows secs (p, sp, dn) with
        | some d => some d
        | none => lookup3 ps p sp dn := by
  intro secs
  induction secs with
  | nil => intro ps p sp dn; rfl
  | cons sec t ih =>
    intro ps p sp dn
    rw [List.foldl_cons, ih (stepSection rows ps sec) p sp dn, lookup3_step]
    show _ =
      (match
        (match findLastDoor rows t (p, sp, dn) with
         | some d => some d
         | none =>
           match sectionOutcome rows sec with
           | some (p0, sp0, dn0, d0) =>
             if (p0, sp0, dn0) = (p, sp, dn) then some d0 else none
           | none => none) with
       | some d => some d
       | none => lookup3 ps p sp dn)
    cases findLastDoor rows t (p, sp, dn) with
    | some d => rfl
    | none =>
      cases ho : sectionOutcome rows sec with
      | none => rfl
      | some q =>
        obtain ⟨p0, sp0, dn0, d0⟩ := q
        dsimp only
        by_cases hq : (p0, sp0, dn0) = (p, sp, dn)
        · simp only [if_pos hq]
        · simp only [if_neg hq]

/-- Key invariants of the nested dictionaries. -/
def WFP (ps : PanelsT) : Prop :=
  (keysOf ps).Nodup ∧
  ∀ e ∈ ps, (keysOf e.2).Nodup ∧ ∀ e2 ∈ e.2, (keysOf e2.2).Nodup

section DictKeyLemmas

variable {α : Type} {β : Type} [DecidableEq α]

theorem mem_keys_updD (a k : α) (dflt : β) (f : β → β) :
    ∀ l : List (α × β), a ∈ keysOf (updD k dflt f l) ↔ a ∈ keysOf l ∨ a = k := by
  intro l
  induction l with
  | nil => simp [updD, keysOf]
  | cons hd t ih =>
    obtain ⟨k', v'⟩ := hd
    by_cases h : k' = k
    · subst h
      simp [updD, keysOf]
      tauto
    · simp only [updD, if_neg h, keysOf, List.map_cons, List.mem_cons]
      rw [show keysOf (updD k dflt f t) = List.map Prod.fst (updD k dflt f t) from rfl] at ih
      rw [show keysOf t = List.map Prod.fst t from rfl] at ih
      tauto

theorem nodup_keys_updD (k : α) (dflt : β) (f : β → β) :
    ∀ l : List (α × β), (keysOf l).Nodup → (keysOf (updD k dflt f l)).Nodup := by
  intro l hl
  induction l with
  | nil => simp [updD, keysOf]
  | cons hd t ih =>
    obtain ⟨k', v'⟩ := hd
    simp only [keysOf, List.map_cons, List.nodup_cons] at hl
    by_cases h : k' = k
    · subst h
      simpa [updD, keysOf, List.nodup_cons] using hl
    · simp only [updD, if_neg h, keysOf, List.map_cons, List.nodup_cons]
      refine ⟨?_, ih hl.2⟩
      intro hmem
      rcases (mem_keys_updD k' k dflt f t).mp hmem with hin | heq
      · exact hl.1 hin
      · exact h heq

theorem mem_keys_dinsert (a k : α) (v : β) :
    ∀ l : List (α × β), a ∈ keysOf (dinsert k v l) ↔ a ∈ keysOf l ∨ a = k := by
  intro l
  induction l with
  | nil => simp [dinsert, keysOf]
  | cons hd t ih =>
    obtain ⟨k', v'⟩ := hd
    by_cases h : k' = k
    · subst h
      simp [dinsert, keysOf]
      tauto
    · simp only [dinsert, if_neg h, keysOf, List.map_cons, List.mem_cons]
      rw [show keysOf (dinsert k v t) = List.map Prod.fst (dinsert k v t) from rfl] at ih
      rw [show keysOf t = List.map Prod.fst t from rfl] at ih
      tauto

theorem nodup_keys_dinsert (k : α) (v : β) :
    ∀ l : List (α × β), (keysOf l).Nodup → (keysOf (dinsert k v l)).Nodup := by
  intro l hl
  induction l with
  | nil => simp [dinsert, keysOf]
  | cons hd t ih =>
    obtain ⟨k', v'⟩ := hd
    simp only [keysOf, List.map_cons, List.nodup_cons] at hl
    by_cases h : k' = k
    · subst h
      simpa [dinsert, keysOf, List.nodup_cons] using hl
    · simp only [dinsert, if_neg h, keysOf, List.map_cons, List.nodup_cons]
      refine ⟨?_, ih hl.2⟩
      intro hmem
      rcases (mem_keys_dinsert k' k v t).mp hmem with hin | heq
      · exact hl.1 hin
      · exact h heq

theorem mem_updD_elim (e : α × β) (k : α) (dflt : β) (f : β → β) :
    ∀ l : List (α × β), e ∈ updD k dflt f l →
      e ∈ l ∨ e = (k, f ((dLookup k l).getD dflt)) := by
  intro l he
  induction l with
  | nil => simpa [updD, dLookup] using he
  | cons hd t ih =>
    obtain ⟨k', v'⟩ := hd
    by_cases h : k' = k
    · subst h
      simp only [updD, eq_self_iff_true, if_true, List.mem_cons] at he
      rcases he with rfl | he
      · refine Or.inr ?_
        simp [dLookup]
      · exact Or.inl (List.mem_cons_of_mem _ he)
    · simp only [updD, if_neg h, List.mem_cons] at he
      rcases he with rfl | he
      · exact Or.inl (List.mem_cons_self _ _)
      · rcases ih he with hin | heq
        · exact Or.inl (List.mem_cons_of_mem _ hin)
        ·exact Or.inr (by simpa [dLookup, h] using heq)

theorem dLookup_mem (k : α) (v : β) :
    ∀ l : List (α × β), dLookup k l = some v → (k, v) ∈ l := by
  intro l hl
  induction l with
  | nil => simp [dLookup] at hl
  | cons hd t ih =>
    obtain ⟨k', v'⟩ := hd
    by_cases h : k' = k
    · subst h
      simp only [dLookup, eq_self_iff_true, if_true, Option.some.injEq] at hl
      subst hl
      exact List.mem_cons_self _ _
    · simp only [dLookup, if_neg h] at hl
      exact List.mem_cons_of_mem _ (ih hl)

end DictKeyLemmas

theorem WFP_step (rows : List Row) (se : Nat × Nat) (ps : PanelsT)
    (hps : WFP ps) : WFP (stepSection rows ps se) := by
  cases ho : sectionOutcome rows se with
  | none => simpa [stepSection, ho] using hps
  | some q =>
    obtain ⟨p, sp, dn, d⟩ := q
    simp only [stepSection, ho]
    have hpd0 : (keysOf ((dLookup p ps).getD [])).Nodup ∧
        ∀ e2 ∈ (dLookup p ps).getD [], (keysOf e2.2).Nodup := by
      cases hpd : dLookup p ps with
      | none => simp [keysOf]
      | some pd =>
        have := hps.2 (p, pd) (dLookup_mem p pd ps hpd)
        simpa using this
    refine ⟨nodup_keys_updD _ _ _ _ hps.1, ?_⟩
    intro e he
    rcases mem_updD_elim e _ _ _ ps he with hin | heq
    · exact hps.2 e hin
    · rw [heq]
      dsimp only
      constructor
      · exact nodup_keys_updD _ _ _ _ hpd0.1
      · intro e2 he2
        rcases mem_updD_elim e2 _ _ _ _ he2 with hin2 | heq2
        · exact hpd0.2 e2 hin2
        · rw [heq2]
          dsimp only
          have hsd0 : (keysOf ((dLookup sp ((dLookup p ps).getD [])).getD [])).Nodup := by
            cases hsd : dLookup sp ((dLookup p ps).getD []) with
            | none => simp [keysOf]
            | some sd =>
              have := hpd0.2 (sp, sd) (dLookup_mem sp sd _ hsd)
              simpa using this
          exact nodup_keys_dinsert _ _ _ hsd0

theorem WFP_foldl (rows : List Row) :
    ∀ (secs : List (Nat × Nat)) (ps : PanelsT), WFP ps →
      WFP (secs.foldl (stepSection rows) ps) := by
  intro secs
  induction secs with
  | nil => intro ps h; exact h
  | cons sec t ih =>
    intro ps h
    rw [List.foldl_cons]
    exact ih _ (WFP_step rows sec ps h)

/-- Claim C5: looking up any `(panel, subpanel, door-name)` triple in the
parsed structure returns exactly the door contributed by the last section
that writes that triple (so every non-overwritten parsed door appears in
exactly one bucket, an overwriting door replaces the earlier one — last
write wins — and nothing else ever appears); the nested dictionaries have
duplicate-free keys at every level; and a section without a `Panel` row, or
with the sentinel at row 0, has no outcome at all (excluded entirely). -/
theorem claim_C5 : ∀ rows : List Row,
    (∀ (p : String) (sp : Int) (dn : String),
      lookup3 (parse_door_config rows) p sp dn =
        findLastDoor rows (sectionsOf rows) (p, sp, dn)) ∧
    WFP (parse_door_config rows) ∧
    (∀ s e : Nat, panelRowsOf rows s e = [] → sectionOutcome rows (s, e) = none) ∧
    (∀ e : Nat, sectionOutcome rows (0, e) = none) := by
  intro rows
  refine ⟨?_, ?_, ?_, fun e => rfl⟩
  · intro p sp dn
    rw [parse_door_config, lookup3_foldl]
    cases findLastDoor rows (sectionsOf rows) (p, sp, dn) with
    | some d => rfl
    | none => rfl
  · exact WFP_foldl rows (sectionsOf rows) [] ⟨List.nodup_nil, by simp⟩
  · intro s e h
    by_cases hs : s = 0
    · subst hs
      rfl
    · simp [sectionOutcome, hs, h]

/-- Witness for claim C5: the section of a concrete table lacking a `Panel`
row has no outcome. -/
theorem claim_C5_witness :
    sectionOutcome [⟨some "Door A", none⟩, ⟨some sentinelName, none⟩,
                    ⟨some "Other", some "x"⟩] (1, 3) = none :=
  (claim_C5 _).2.2.1 1 3 (by decide)

/-! ## Claim C4: layout bounds and non-overlap -/

/-- The box lies inside the unit square: it has non-negative extents and all
four corners have both coordinates in `[0, 1]`. -/
def inUnit (b : Box) : Prop :=
  0 ≤ b.x ∧ 0 ≤ b.w ∧ b.x + b.w ≤ 1 ∧ 0 ≤ b.y ∧ 0 ≤ b.h ∧ b.y + b.h ≤ 1

/-- The boxes are strictly separated along some axis: they neither overlap
nor touch. -/
def sepBoxes (a b : Box) : Prop :=
  (a.x + a.w < b.x ∨ b.x + b.w < a.x) ∨ (a.y + a.h < b.y ∨ b.y + b.h < a.y)

theorem doorCells_length (cx dw dh gap : ℚ) :
    ∀ (items : SubpanelT) (y : ℚ),
      (doorCells cx dw dh gap y items).length = items.length := by
  intro items
  induction items with
  | nil => intro y; rfl
  | cons a t ih =>
    intro y
    obtain ⟨nm, d⟩ := a
    simp [doorCells, ih]

theorem doorCells_top (cx dw dh gap : ℚ) (hpos : 0 ≤ dh + gap) :
    ∀ (items : SubpanelT) (y : ℚ) (cell : DoorCell),
      cell ∈ doorCells cx dw dh gap y items → cell.box.y + cell.box.h ≤ y + dh / 2 := by
  intro items
  induction items with
  | nil => intro y cell hc; simp [doorCells] at hc
  | cons a t ih =>
    intro y cell hc
    obtain ⟨nm, d⟩ := a
    simp only [doorCells, List.mem_cons] at hc
    rcases hc with rfl | hc
    · simp only [mkBoxCentered]
      linarith
    · have := ih (y - (dh + gap)) cell hc
      linarith

theorem doorCells_main (cx dw dh gap : ℚ)
    (hx0 : 0 ≤ cx - dw / 2) (hdw : 0 ≤ dw) (hx1 : cx - dw / 2 + dw ≤ 1)
    (hdh : 0 < dh) (hgap : 0 < gap) :
    ∀ (items : SubpanelT) (y : ℚ),
      y + dh / 2 ≤ 3/5 →
      0 ≤ y - dh / 2 - ((items.length : ℚ) - 1) * (dh + gap) →
      (∀ cell ∈ doorCells cx dw dh gap y items,
          inUnit cell.box ∧ cell.box.h = dh) ∧
      (doorCells cx dw dh gap y items).Pairwise (fun a b => sepBoxes a.box b.box) := by
  intro items
  induction items with
  | nil => intro y h1 h2; exact ⟨by simp [doorCells], by simp [doorCells]⟩
  | cons a t ih =>
    intro y h1 h2
    obtain ⟨nm, d⟩ := a
    have hlen : ((((nm, d) :: t).length : ℚ) - 1) = (t.length : ℚ) := by
      simp only [List.length_cons]
      push_cast
      ring
    rw [hlen] at h2
    have hexp : ((t.length : ℚ)) * (dh + gap) - (dh + gap) =
        ((t.length : ℚ) - 1) * (dh + gap) := by ring
    have htl : (0 : ℚ) ≤ (t.length : ℚ) := Nat.cast_nonneg _
    have hmul : 0 ≤ ((t.length : ℚ)) * (dh + gap) :=
      mul_nonneg htl (by linarith)
    constructor
    · intro cell hc
      simp only [doorCells, List.mem_cons] at hc
      rcases hc with rfl | hc
      · refine ⟨⟨hx0, hdw, hx1, ?_, le_of_lt hdh, ?_⟩, rfl⟩
        · simp only [mkBoxCentered]
          linarith
        · simp only [mkBoxCentered]
          linarith
      · have := (ih (y - (dh + gap)) (by linarith) (by rw [← hexp]; linarith)).1 cell hc
        exact this
    · simp only [doorCells]
      refine List.pairwise_cons.mpr ⟨?_, ?_⟩
      · intro cell hc
        have htop := doorCells_top cx dw dh gap (by linarith) t (y - (dh + gap)) cell hc
        refine Or.inr (Or.inr ?_)
        simp only [mkBoxCentered]
        linarith
      · exact (ih (y - (dh + gap)) (by linarith) (by rw [← hexp]; linarith)).2

theorem mkColumn_cells_eq (n j : ℕ) (sp : Int) (doors : SubpanelT)
    (hm : doors.length ≠ 0) :
    (mkColumn n j sp doors).cells =
      doorCells (((j : ℚ) / n + ((j : ℚ) + 1) / n) / 2)
        ((((j : ℚ) + 1) / n - (j : ℚ) / n) * 0.8 * 0.9)
        ((0.6 - 0.1) / (doors.length : ℚ) * 0.8)
        ((0.6 - 0.1) / (doors.length : ℚ) * 0.2)
        (0.6 - (0.6 - 0.1) / (doors.length : ℚ) * 0.8 / 2)
        (sortDoorItems doors) := by
  simp [mkColumn, hm]

theorem doorCells_xw (cx dw dh gap : ℚ) :
    ∀ (items : SubpanelT) (y : ℚ) (cell : DoorCell),
      cell ∈ doorCells cx dw dh gap y items →
      cell.box.x = cx - dw / 2 ∧ cell.box.w = dw := by
  intro items
  induction items with
  | nil => intro y cell hc; simp [doorCells] at hc
  | cons a t ih =>
    intro y cell hc
    obtain ⟨nm, d⟩ := a
    simp only [doorCells, List.mem_cons] at hc
    rcases hc with rfl | hc
    · exact ⟨rfl, rfl⟩
    · exact ih _ cell hc

theorem mkColumn_props (n j : ℕ) (hn : 1 ≤ n) (hj : j < n) (sp : Int)
    (doors : SubpanelT) :
    inUnit (mkColumn n j sp doors).box ∧
    (∀ cell ∈ (mkColumn n j sp doors).cells,
        inUnit cell.box ∧
        cell.box.h = (0.6 - 0.1) / ((mkColumn n j sp doors).cells.length : ℚ) * 0.8) ∧
    (mkColumn n j sp doors).cells.Pairwise (fun a b => sepBoxes a.box b.box) := by
  have hN : (0 : ℚ) < (n : ℚ) := by exact_mod_cast Nat.pos_of_ne_zero (by omega)
  have hJ0 : (0 : ℚ) ≤ (j : ℚ) := Nat.cast_nonneg j
  have hJN : (j : ℚ) + 1 ≤ (n : ℚ) := by exact_mod_cast hj
  have hcs : (0 : ℚ) ≤ (j : ℚ) / (n : ℚ) := div_nonneg hJ0 (le_of_lt hN)
  have hlt : (j : ℚ) / (n : ℚ) < ((j : ℚ) + 1) / (n : ℚ) :=
    (div_lt_div_iff_of_pos_right hN).mpr (by linarith)
  have hce1 : ((j : ℚ) + 1) / (n : ℚ) ≤ 1 := (div_le_one hN).mpr hJN
  by_cases hm : doors.length = 0
  · refine ⟨?_, ?_, ?_⟩
    · simp only [mkColumn, hm, mkBoxCentered, inUnit]
      refine ⟨by linarith, by linarith, by linarith, by norm_num, by norm_num,
        by norm_num⟩
    · simp [mkColumn, hm]
    · simp [mkColumn, hm]
  · have hM1 : (1 : ℚ) ≤ (doors.length : ℚ) := by
      exact_mod_cast Nat.one_le_iff_ne_zero.mpr hm
    have hM0 : (0 : ℚ) < (doors.length : ℚ) := by linarith
    have hu : (0 : ℚ) < (0.6 - 0.1) / (doors.length : ℚ) :=
      div_pos (by norm_num) hM0
    have hMu : (doors.length : ℚ) * ((0.6 - 0.1) / (doors.length : ℚ)) = 0.6 - 0.1 := by
      field_simp
    have hslen : (sortDoorItems doors).length = doors.length :=
      (isortBy_perm sortKey doors).length_eq
    have hcells := mkColumn_cells_eq n j sp doors hm
    have hmain := doorCells_main
      (((j : ℚ) / n + ((j : ℚ) + 1) / n) / 2)
      ((((j : ℚ) + 1) / n - (j : ℚ) / n) * 0.8 * 0.9)
      ((0.6 - 0.1) / (doors.length : ℚ) * 0.8)
      ((0.6 - 0.1) / (doors.length : ℚ) * 0.2)
      (by linarith) (by linarith) (by linarith)
      (by linarith) (by linarith)
      (sortDoorItems doors)
      (0.6 - (0.6 - 0.1) / (doors.length : ℚ) * 0.8 / 2)
      (by norm_num)
      (by
        rw [hslen]
        have hkey : ((doors.length : ℚ) - 1) *
            ((0.6 - 0.1) / (doors.length : ℚ) * 0.8 +
             (0.6 - 0.1) / (doors.length : ℚ) * 0.2) =
            (0.6 - 0.1) - (0.6 - 0.1) / (doors.length : ℚ) := by
          have e1 : ((0.6 - 0.1) / (doors.length : ℚ) * 0.8 +
              (0.6 - 0.1) / (doors.length : ℚ) * 0.2) =
              (0.6 - 0.1) / (doors.length : ℚ) := by ring
          rw [e1, sub_mul, one_mul, hMu]
        rw [hkey]
        linarith)
    refine ⟨?_, ?_, ?_⟩
    · simp only [mkColumn, mkBoxCentered, inUnit]
      refine ⟨by linarith, by linarith, by linarith, by norm_num, by norm_num,
        by norm_num⟩
    · intro cell hc
      rw [hcells] at hc
      have h1 := hmain.1 cell hc
      refine ⟨h1.1, ?_⟩
      rw [hcells, doorCells_length, hslen]
      exact h1.2
    · rw [hcells]
      exact hmain.2

theorem mkColumn_sep (n j1 j2 : ℕ) (h12 : j1 < j2) (hj2 : j2 < n)
    (sp1 sp2 : Int) (d1 d2 : SubpanelT) :
    sepBoxes (mkColumn n j1 sp1 d1).box (mkColumn n j2 sp2 d2).box := by
  have hN : (0 : ℚ) < (n : ℚ) := by exact_mod_cast Nat.pos_of_ne_zero (by omega)
  have hcs2 : ((j1 : ℚ) + 1) / (n : ℚ) ≤ (j2 : ℚ) / (n : ℚ) := by
    gcongr
    exact_mod_cast h12
  have hlt1 : (j1 : ℚ) / (n : ℚ) < ((j1 : ℚ) + 1) / (n : ℚ) :=
    (div_lt_div_iff_of_pos_right hN).mpr (by linarith)
  have hlt2 : (j2 : ℚ) / (n : ℚ) < ((j2 : ℚ) + 1) / (n : ℚ) :=
    (div_lt_div_iff_of_pos_right hN).mpr (by linarith)
  have heq : ((j1 : ℚ) + 1) / (n : ℚ) - (j1 : ℚ) / (n : ℚ) =
      ((j2 : ℚ) + 1) / (n : ℚ) - (j2 : ℚ) / (n : ℚ) := by ring
  refine Or.inl (Or.inl ?_)
  simp only [mkColumn, mkBoxCentered]
  linarith

theorem mkColumn_cells_sep (n j1 j2 : ℕ) (h12 : j1 < j2) (hj2 : j2 < n)
    (sp1 sp2 : Int) (d1 d2 : SubpanelT) :
    ∀ c1 ∈ (mkColumn n j1 sp1 d1).cells, ∀ c2 ∈ (mkColumn n j2 sp2 d2).cells,
      sepBoxes c1.box c2.box := by
  intro c1 hc1 c2 hc2
  have hN : (0 : ℚ) < (n : ℚ) := by exact_mod_cast Nat.pos_of_ne_zero (by omega)
  have hcs2 : ((j1 : ℚ) + 1) / (n : ℚ) ≤ (j2 : ℚ) / (n : ℚ) := by
    gcongr
    exact_mod_cast h12
  have hlt1 : (j1 : ℚ) / (n : ℚ) < ((j1 : ℚ) + 1) / (n : ℚ) :=
    (div_lt_div_iff_of_pos_right hN).mpr (by linarith)
  have hlt2 : (j2 : ℚ) / (n : ℚ) < ((j2 : ℚ) + 1) / (n : ℚ) :=
    (div_lt_div_iff_of_pos_right hN).mpr (by linarith)
  have heq : ((j1 : ℚ) + 1) / (n : ℚ) - (j1 : ℚ) / (n : ℚ) =
      ((j2 : ℚ) + 1) / (n : ℚ) - (j2 : ℚ) / (n : ℚ) := by ring
  by_cases hm1 : d1.length = 0
  · rw [show (mkColumn n j1 sp1 d1).cells = [] by simp [mkColumn, hm1]] at hc1
    simp at hc1
  · by_cases hm2 : d2.length = 0
    · rw [show (mkColumn n j2 sp2 d2).cells = [] by simp [mkColumn, hm2]] at hc2
      simp at hc2
    · rw [mkColumn_cells_eq n j1 sp1 d1 hm1] at hc1
      rw [mkColumn_cells_eq n j2 sp2 d2 hm2] at hc2
      obtain ⟨hx1, hw1⟩ := doorCells_xw _ _ _ _ _ _ c1 hc1
      obtain ⟨hx2, hw2⟩ := doorCells_xw _ _ _ _ _ _ c2 hc2
      refine Or.inl (Or.inl ?_)
      rw [hx1, hw1, hx2]
      linarith

theorem mem_columnsFrom (sps : PanelT) (n : ℕ) :
    ∀ (ks : List Int) (i : ℕ) (c : Column), c ∈ columnsFrom sps n i ks →
      ∃ (j : ℕ) (sp : Int), i ≤ j ∧ j < i + ks.length ∧
        c = mkColumn n j sp ((dLookup sp sps).getD []) := by
  intro ks
  induction ks with
  | nil => intro i c hc; simp [columnsFrom] at hc
  | cons sp t ih =>
    intro i c hc
    simp only [columnsFrom, List.mem_cons] at hc
    rcases hc with rfl | hc
    · exact ⟨i, sp, le_rfl, by simp, rfl⟩
    · obtain ⟨j, sp', hij, hjlt, rfl⟩ := ih (i + 1) c hc
      exact ⟨j, sp', by omega, by simp only [List.length_cons]; omega, rfl⟩

theorem pairwise_columnsFrom (sps : PanelT) (n : ℕ) :
    ∀ (ks : List Int) (i : ℕ), i + ks.length ≤ n →
      (columnsFrom sps n i ks).Pairwise
        (fun a b => sepBoxes a.box b.box ∧
          ∀ ca ∈ a.cells, ∀ cb ∈ b.cells, sepBoxes ca.box cb.box) := by
  intro ks
  induction ks with
  | nil => intro i h; simp [columnsFrom]
  | cons sp t ih =>
    intro i h
    simp only [List.length_cons] at h
    simp only [columnsFrom]
    refine List.pairwise_cons.mpr ⟨?_, ih (i + 1) (by omega)⟩
    intro c hc
    obtain ⟨j, sp', hij, hjlt, rfl⟩ := mem_columnsFrom sps n t (i + 1) c hc
    exact ⟨mkColumn_sep n i j (by omega) (by omega) sp sp' _ _,
      mkColumn_cells_sep n i j (by omega) (by omega) sp sp' _ _⟩

/-- Claim C4: for every panel drawn (which requires at least one subpanel),
every emitted box — panel, subpanel and door boxes — lies inside the unit
square; sibling subpanel boxes are pairwise strictly separated (no overlap),
sibling door boxes within one subpanel are pairwise strictly separated
(they never touch), door boxes of two distinct subpanels are strictly
separated as well, and each door box's height is 80% of its equal share of
the `[0.1, 0.6]` vertical band (the other 20% being spacing). -/
theorem claim_C4 : ∀ (nm : String) (sps : PanelT) (L : Layout),
    draw_panel_diagram nm sps = some L →
    inUnit L.panelBox ∧
    (∀ c ∈ L.columns, inUnit c.box ∧
        ∀ cell ∈ c.cells, inUnit cell.box ∧
          cell.box.h = (0.6 - 0.1) / (c.cells.length : ℚ) * 0.8) ∧
    L.columns.Pairwise (fun a b => sepBoxes a.box b.box) ∧
    (∀ c ∈ L.columns, c.cells.Pairwise (fun a b => sepBoxes a.box b.box)) ∧
    L.columns.Pairwise
      (fun a b => ∀ ca ∈ a.cells, ∀ cb ∈ b.cells, sepBoxes ca.box cb.box) := by
  intro nm sps L h
  by_cases hn : sps.length = 0
  · simp [draw_panel_diagram, hn] at h
  · simp only [draw_panel_diagram, hn, if_false] at h
    injection h with h
    subst h
    have hn1 : 1 ≤ sps.length := Nat.one_le_iff_ne_zero.mpr hn
    have hklen : (isortBy (fun x => x) (keysOf sps)).length = sps.length := by
      rw [(isortBy_perm _ _).length_eq]
      simp [keysOf]
    refine ⟨?_, ?_, ?_, ?_, ?_⟩
    · simp only [panelBoxDef, mkBoxCentered, inUnit]
      norm_num
    · intro c hc
      obtain ⟨j, sp, h0j, hjlt, rfl⟩ := mem_columnsFrom sps sps.length _ 0 c hc
      have hjn : j < sps.length := by rw [hklen] at hjlt; omega
      have hp := mkColumn_props sps.length j hn1 hjn sp ((dLookup sp sps).getD [])
      exact ⟨hp.1, hp.2.1⟩
    · exact (pairwise_columnsFrom sps sps.length _ 0 (by simp [hklen])).imp
        fun hab => hab.1
    · intro c hc
      obtain ⟨j, sp, h0j, hjlt, rfl⟩ := mem_columnsFrom sps sps.length _ 0 c hc
      have hjn : j < sps.length := by rw [hklen] at hjlt; omega
      exact (mkColumn_props sps.length j hn1 hjn sp ((dLookup sp sps).getD [])).2.2
    · exact (pairwise_columnsFrom sps sps.length _ 0 (by simp [hklen])).imp
        fun hab => hab.2

/-- A concrete two-subpanel, three-door panel for the claim C4 witness. -/
def sampleSubpanels : PanelT :=
  [(3, [("A", ⟨5, []⟩), ("B", ⟨-1, []⟩)]), (0, [("Z", ⟨1, []⟩)])]

def sampleLayout : Layout :=
  (draw_panel_diagram "Sample" sampleSubpanels).getD ⟨"", panelBoxDef, []⟩

/-- Witness for claim C4 on the concrete sample panel. -/
theorem claim_C4_witness :
    inUnit sampleLayout.panelBox ∧
    (∀ c ∈ sampleLayout.columns, inUnit c.box ∧
        ∀ cell ∈ c.cells, inUnit cell.box ∧
          cell.box.h = (0.6 - 0.1) / (c.cells.length : ℚ) * 0.8) ∧
    sampleLayout.columns.Pairwise (fun a b => sepBoxes a.box b.box) ∧
    (∀ c ∈ sampleLayout.columns,
        c.cells.Pairwise (fun a b => sepBoxes a.box b.box)) ∧
    sampleLayout.columns.Pairwise
      (fun a b => ∀ ca ∈ a.cells, ∀ cb ∈ b.cells, sepBoxes ca.box cb.box) :=
  claim_C4 "Sample" sampleSubpanels sampleLayout rfl

end DoorConfig
